import Mathlib

/-!
Verification development for `rss_to_telegram.py`: a single-run RSS poller
that deduplicates feed entries by a hashed identity, applies include/exclude
keyword filters, dispatches matching entries to a messaging endpoint, and
persists a bounded per-feed set of seen identities.

The embedding translates the Python source shallowly:
* Python strings are Lean `String`s; the ASCII fragment of Python's
  whitespace handling and lowercasing is modelled (`pyIsSpace`,
  `Char.toLower`), which covers every string the claims exercise.
* Feed entries (`feedparser` dicts) are association lists from string keys
  to a small dynamic value type `EValue` (strings, time tuples, `None`).
* `hashlib.sha256(...).hexdigest()` is implemented executably over `Nat`
  (all 32-bit arithmetic is explicit `% 2^32`).
* The two network collaborators are black boxes, exactly as the spec
  declares them: feed fetching is a function `String → ParseResult`, and
  the Telegram POST is a function `String → Bool` (success flag); the
  credential check that precedes the POST is part of `telegram_send`.
* Exceptions that propagate out of the run are modelled with `Except`.
-/

namespace RSS

/-! ### Python string primitives -/

/-- ASCII whitespace, as recognised by Python's `str.strip` and `\s`. -/
def pyIsSpace (c : Char) : Bool :=
  c == ' ' || c == '\t' || c == '\n' || c == '\r' || c == '\x0b' || c == '\x0c'

/-- `str.strip()` on the underlying character list. -/
def pyStripL (l : List Char) : List Char :=
  ((l.dropWhile pyIsSpace).reverse.dropWhile pyIsSpace).reverse

/-- Python `s.strip()`. -/
def pyStrip (s : String) : String := ⟨pyStripL s.data⟩

/-- Python `s.lower()` (ASCII fragment). -/
def pyLower (s : String) : String := ⟨s.data.map Char.toLower⟩

/-- One pass of `re.sub(r"\s+", " ", s)`: the flag records whether the
previous character belonged to a whitespace run already replaced. -/
def collapseWs : List Char → Bool → List Char
  | [], _ => []
  | c :: cs, prevSpace =>
    if pyIsSpace c then
      if prevSpace then collapseWs cs true else ' ' :: collapseWs cs true
    else c :: collapseWs cs false

/-- `norm` from the source: `re.sub(r"\s+", " ", (s or "")).strip().lower()`. -/
def norm (s : String) : String := pyLower (pyStrip ⟨collapseWs s.data false⟩)

/-- `kw` occurs at the head of `hay`. -/
def leadEq : List Char → List Char → Bool
  | [], _ => true
  | _ :: _, [] => false
  | a :: as, b :: bs => a == b && leadEq as bs

/-- `kw` occurs somewhere in `hay` (Python's `kw in hay` on strings). -/
def subL (kw : List Char) : List Char → Bool
  | [] => leadEq kw []
  | c :: t => leadEq kw (c :: t) || subL kw t

/-- Python's substring test `kw in hay`. -/
def hasSub (kw hay : String) : Bool := subL kw.data hay.data

/-! ### SHA-256, executable over `Nat` -/

/-- Truncation to 32 bits. -/
def w32 (n : Nat) : Nat := n % 4294967296

/-- 32-bit right rotation. -/
def rotr (x k : Nat) : Nat := w32 ((x >>> k) ||| (x <<< (32 - k)))

def bigSigma0 (x : Nat) : Nat := rotr x 2 ^^^ rotr x 13 ^^^ rotr x 22

def bigSigma1 (x : Nat) : Nat := rotr x 6 ^^^ rotr x 11 ^^^ rotr x 25

def smallSigma0 (x : Nat) : Nat := rotr x 7 ^^^ rotr x 18 ^^^ (x >>> 3)

def smallSigma1 (x : Nat) : Nat := rotr x 17 ^^^ rotr x 19 ^^^ (x >>> 10)

def chFn (x y z : Nat) : Nat := (x &&& y) ^^^ ((x ^^^ 0xFFFFFFFF) &&& z)

def majFn (x y z : Nat) : Nat := (x &&& y) ^^^ (x &&& z) ^^^ (y &&& z)

/-- The 64 SHA-256 round constants (decimal; the fractional cube-root
words 0x428a2f98, 0x71374491, … of FIPS 180-4). -/
def sha256K : List Nat :=
  [1116352408, 1899447441, 3049323471, 3921009573, 961987163, 1508970993,
   2453635748, 2870763221, 3624381080, 310598401, 607225278, 1426881987,
   1925078388, 2162078206, 2614888103, 3248222580, 3835390401, 4022224774,
   264347078, 604807628, 770255983, 1249150122, 1555081692, 1996064986,
   2554220882, 2821834349, 2952996808, 3210313671, 3336571891, 3584528711,
   113926993, 338241895, 666307205, 773529912, 1294757372, 1396182291,
   1695183700, 1986661051, 2177026350, 2456956037, 2730485921, 2820302411,
   3259730800, 3345764771, 3516065817, 3600352804, 4094571909, 275423344,
   430227734, 506948616, 659060556, 883997877, 958139571, 1322822218,
   1537002063, 1747873779, 1955562222, 2024104815, 2227730452, 2361852424,
   2428436474, 2756734187, 3204031479, 3329325298]

/-- The initial SHA-256 hash state (decimal; 0x6a09e667, … of FIPS 180-4). -/
def sha256H0 : List Nat :=
  [1779033703, 3144134277, 1013904242, 2773480762, 1359893119, 2600822924,
   528734635, 1541459225]

/-- UTF-8 encoding of one character, as a list of byte values. -/
def utf8Char (c : Char) : List Nat :=
  let n := c.toNat
  if n < 0x80 then [n]
  else if n < 0x800 then
    [0xC0 ||| (n >>> 6), 0x80 ||| (n &&& 0x3F)]
  else if n < 0x10000 then
    [0xE0 ||| (n >>> 12), 0x80 ||| ((n >>> 6) &&& 0x3F), 0x80 ||| (n &&& 0x3F)]
  else
    [0xF0 ||| (n >>> 18), 0x80 ||| ((n >>> 12) &&& 0x3F),
     0x80 ||| ((n >>> 6) &&& 0x3F), 0x80 ||| (n &&& 0x3F)]

/-- `s.encode("utf-8")` as a byte list. -/
def utf8 (s : String) : List Nat := (s.data.map utf8Char).flatten

/-- SHA-256 message padding. -/
def shaPad (bytes : List Nat) : List Nat :=
  let lenBits := bytes.length * 8
  let zeros := (119 - (bytes.length % 64)) % 64
  bytes ++ [0x80] ++ List.replicate zeros 0 ++
    ((List.range 8).map fun i => (lenBits >>> ((7 - i) * 8)) &&& 255)

/-- Big-endian 32-bit words from a byte list. -/
def beWords : List Nat → List Nat
  | b0 :: b1 :: b2 :: b3 :: rest =>
    ((b0 <<< 24) ||| (b1 <<< 16) ||| (b2 <<< 8) ||| b3) :: beWords rest
  | _ => []

/-- Split a byte list into 64-byte blocks (fuelled recursion). -/
def blocks64 : Nat → List Nat → List (List Nat)
  | 0, _ => []
  | _ + 1, [] => []
  | fuel + 1, l => l.take 64 :: blocks64 fuel (l.drop 64)

/-- Extend a 16-word block to the 64-word message schedule. -/
def shaSchedule (ws : List Nat) : List Nat :=
  (List.range 48).foldl
    (fun acc _ =>
      let n := acc.length
      acc ++ [w32 (smallSigma1 (acc.getD (n - 2) 0) + acc.getD (n - 7) 0 +
                   smallSigma0 (acc.getD (n - 15) 0) + acc.getD (n - 16) 0)])
    ws

/-- One SHA-256 compression round. -/
def shaRound (st : Nat × Nat × Nat × Nat × Nat × Nat × Nat × Nat) (wk : Nat × Nat) :
    Nat × Nat × Nat × Nat × Nat × Nat × Nat × Nat :=
  match st, wk with
  | (a, b, c, d, e, f, g, h), (wi, ki) =>
    let t1 := w32 (h + bigSigma1 e + chFn e f g + ki + wi)
    let t2 := w32 (bigSigma0 a + majFn a b c)
    (w32 (t1 + t2), a, b, c, w32 (d + t1), e, f, g)

/-- Compress one 64-byte block into the running hash state. -/
def shaCompress (hs : List Nat) (block : List Nat) : List Nat :=
  let ws := shaSchedule (beWords block)
  match (ws.zip sha256K).foldl shaRound
      (hs.getD 0 0, hs.getD 1 0, hs.getD 2 0, hs.getD 3 0,
       hs.getD 4 0, hs.getD 5 0, hs.getD 6 0, hs.getD 7 0) with
  | (a, b, c, d, e, f, g, h) =>
    [w32 (hs.getD 0 0 + a), w32 (hs.getD 1 0 + b), w32 (hs.getD 2 0 + c),
     w32 (hs.getD 3 0 + d), w32 (hs.getD 4 0 + e), w32 (hs.getD 5 0 + f),
     w32 (hs.getD 6 0 + g), w32 (hs.getD 7 0 + h)]

/-- SHA-256 over a byte list: eight 32-bit state words. -/
def sha256bytes (bytes : List Nat) : List Nat :=
  let padded := shaPad bytes
  (blocks64 padded.length padded).foldl shaCompress sha256H0

/-- Lowercase hex digit. -/
def hexDigit (n : Nat) : Char :=
  if n < 10 then Char.ofNat (48 + n) else Char.ofNat (87 + n)

/-- Eight lowercase hex digits of a 32-bit word. -/
def hex8 (w : Nat) : List Char :=
  (List.range 8).map fun i => hexDigit ((w >>> ((7 - i) * 4)) &&& 15)

/-- `hashlib.sha256(s.encode("utf-8")).hexdigest()`. -/
def sha256hex (s : String) : String :=
  ⟨((sha256bytes (utf8 s)).map hex8).flatten⟩

/-! ### Feed entries: the dynamic values `feedparser` dicts carry -/

/-- A value held in a feed-entry mapping: a string, a parsed time tuple
(`time.struct_time`, a tuple of integers), or Python `None`. -/
inductive EValue where
  | vStr (s : String)
  | vTup (t : List Int)
  | vNone
deriving DecidableEq, Repr

/-- A raw feed entry: a string-keyed mapping (`dict(e)` in the source). -/
abbrev Entry := List (String × EValue)

/-- Python `entry.get(k, d)`. -/
def eGetD (e : Entry) (k : String) (d : EValue) : EValue :=
  (List.lookup k e).getD d

/-- Python truthiness of an entry value. -/
def pyTruthy : EValue → Bool
  | .vStr s => s ≠ ""
  | .vTup t => !t.isEmpty
  | .vNone => false

/-- Python `v or d` on entry values. -/
def pyOrV (v d : EValue) : EValue := if pyTruthy v then v else d

/-- Python `str(v)` on entry values (`str` of a tuple renders `(a, b)`,
with a trailing comma for singletons). -/
def pyStr : EValue → String
  | .vStr s => s
  | .vNone => "None"
  | .vTup [] => "()"
  | .vTup [n] => "(" ++ toString n ++ ",)"
  | .vTup (n :: ns) =>
    "(" ++ toString n ++ (ns.map fun m => ", " ++ toString m).foldl (· ++ ·) "" ++ ")"

/-! ### EntryIdentity: `make_entry_key` -/

/-- `str(entry.get(k, ""))` for one of the six identity keys. -/
def fieldStr (e : Entry) (k : String) : String := pyStr (eGetD e k (.vStr ""))

/-- The six-field identity tuple `(id, guid, link, title, published, updated)`
extracted by `make_entry_key` (missing keys default to `""`). -/
def sixFields (e : Entry) : List String :=
  [fieldStr e "id", fieldStr e "guid", fieldStr e "link",
   fieldStr e "title", fieldStr e "published", fieldStr e "updated"]

/-- `"||".join(parts)` for the six identity fields (parenthesised to the
right; string append is associative, so this is the same string). -/
def joinedFields (e : Entry) : String :=
  fieldStr e "id" ++ ("||" ++ (fieldStr e "guid" ++ ("||" ++ (fieldStr e "link" ++ ("||" ++
    (fieldStr e "title" ++ ("||" ++ (fieldStr e "published" ++ ("||" ++ fieldStr e "updated")))))))))

/-- JSON string escaping as `json.dumps` performs it with
`ensure_ascii=False`: backslash, double quote, and C0 control characters. -/
def jsonEscapeChar (c : Char) : List Char :=
  if c = '\\' then ['\\', '\\']
  else if c = '"' then ['\\', '"']
  else if c = '\n' then ['\\', 'n']
  else if c = '\t' then ['\\', 't']
  else if c = '\r' then ['\\', 'r']
  else if c.toNat < 32 then
    ['\\', 'u', '0', '0', hexDigit (c.toNat / 16), hexDigit (c.toNat % 16)]
  else [c]

/-- A JSON-rendered entry value. -/
def jsonValue : EValue → String
  | .vStr s => "\"" ++ ⟨(s.data.map jsonEscapeChar).flatten⟩ ++ "\""
  | .vNone => "null"
  | .vTup [] => "[]"
  | .vTup (n :: ns) =>
    "[" ++ toString n ++ (ns.map fun m => ", " ++ toString m).foldl (· ++ ·) "" ++ "]"

/-- Insertion into a key-sorted association list (keys compared by code
point, as Python's `sorted` compares strings). -/
def insertByKey (p : String × EValue) : Entry → Entry
  | [] => [p]
  | q :: qs => if p.1 < q.1 then p :: q :: qs else q :: insertByKey p qs

/-- Sort an entry's fields by key, as `json.dumps(..., sort_keys=True)`. -/
def sortByKey : Entry → Entry
  | [] => []
  | p :: ps => insertByKey p (sortByKey ps)

/-- `json.dumps(entry, sort_keys=True, ensure_ascii=False)`. -/
def jsonDumps (e : Entry) : String :=
  let items := (sortByKey e).map fun p => "\"" ++ ⟨(p.1.data.map jsonEscapeChar).flatten⟩ ++ "\": " ++ jsonValue p.2
  match items with
  | [] => "\x7b\x7d"
  | i :: is => "\x7b" ++ i ++ (is.map fun j => ", " ++ j).foldl (· ++ ·) "" ++ "\x7d"

/-- The string that `make_entry_key` feeds to SHA-256: the `"||"`-joined,
stripped identity fields, with the source's fallback to a 500-character
prefix of the sorted JSON serialization when that string is empty. -/
def entryKeyRaw (e : Entry) : String :=
  let raw := pyStrip (joinedFields e)
  if raw = "" then ⟨(jsonDumps e).data.take 500⟩ else raw

/-- `make_entry_key` from the source: SHA-256 hex digest of `entryKeyRaw`. -/
def make_entry_key (e : Entry) : String := sha256hex (entryKeyRaw e)

/-! ### FilterEngine: `passes_filters` -/

/-- The haystack `f"{norm(title)} {norm(summary)}"`. -/
def haystack (title summary : String) : String := norm title ++ " " ++ norm summary

/-- `passes_filters` from the source: excludes win, empty include list
passes, otherwise at least one include keyword must match. -/
def passes_filters (title summary : String) (include_any exclude_any : List String) : Bool :=
  let hay := haystack title summary
  if exclude_any.any (fun kw => norm kw ≠ "" && hasSub (norm kw) hay) then false
  else if include_any.isEmpty then true
  else include_any.any fun kw => norm kw ≠ "" && hasSub (norm kw) hay

/-! ### Delivery transport: `telegram_send` -/

/-- The two environment variables the delivery path reads. -/
structure Env where
  token : String
  chatId : String
deriving DecidableEq, Repr

/-- `telegram_send` from the source. The HTTP POST plus
`raise_for_status` is the black-box `transport` (`true` = 2xx response);
the credential check precedes any use of it. A raised exception is an
`Except.error` carrying the message. -/
def telegram_send (env : Env) (transport : String → Bool) (text : String) :
    Except String Unit :=
  let token := pyStrip env.token
  let chat_id := pyStrip env.chatId
  if token = "" || chat_id = "" then
    .error "TELEGRAM_BOT_TOKEN oder TELEGRAM_CHAT_ID fehlt (GitHub Secrets pruefen)."
  else if transport text then .ok () else .error "HTTPError"

/-! ### MessageFormatter: `build_message` and `format_published` -/

/-- `build_message` from the source. -/
def build_message (feed_name title link published : String) : String :=
  let bits := ["📰 " ++ feed_name, pyStrip title]
  let bits := if published ≠ "" then bits ++ ["🕒 " ++ published] else bits
  let bits := if link ≠ "" then bits ++ [pyStrip link] else bits
  pyStrip (String.intercalate "\n" bits)

/-- Gregorian leap year, as `datetime` uses. -/
def isLeap (y : Int) : Bool := y % 4 = 0 && (y % 100 ≠ 0 || y % 400 = 0)

/-- Days in a month, as `datetime` validates. -/
def daysInMonth (y m : Int) : Int :=
  if m = 2 then (if isLeap y then 29 else 28)
  else if m = 4 || m = 6 || m = 9 || m = 11 then 30
  else 31

/-- Whether `datetime(*t[:6])` succeeds: at least year/month/day present
and every field in range (missing hour/minute/second default to 0). -/
def dtValid (t : List Int) : Bool :=
  3 ≤ t.length &&
  (let y := t.getD 0 0
   let mo := t.getD 1 0
   let d := t.getD 2 0
   let hh := t.getD 3 0
   let mi := t.getD 4 0
   let ss := t.getD 5 0
   1 ≤ y && y ≤ 9999 && 1 ≤ mo && mo ≤ 12 && 1 ≤ d && d ≤ daysInMonth y mo &&
     0 ≤ hh && hh ≤ 23 && 0 ≤ mi && mi ≤ 59 && 0 ≤ ss && ss ≤ 59)

/-- Zero-padded two-digit rendering (for in-range day/month/hour/minute). -/
def pad2 (n : Int) : String := (if n < 10 then "0" else "") ++ toString n

/-- Zero-padded four-digit year. -/
def pad4 (n : Int) : String :=
  (if n < 10 then "000" else if n < 100 then "00" else if n < 1000 then "0" else "") ++
    toString n

/-- `datetime(*t[:6]).strftime("%d.%m.%Y %H:%M")`. -/
def dtRender (t : List Int) : String :=
  pad2 (t.getD 2 0) ++ "." ++ pad2 (t.getD 1 0) ++ "." ++ pad4 (t.getD 0 0) ++ " " ++
    pad2 (t.getD 3 0) ++ ":" ++ pad2 (t.getD 4 0)

/-- One iteration of `format_published`'s loop body for key `k`: the
rendered timestamp, if `entry.get(k)` is truthy, is a tuple, and
`datetime(*t[:6])` succeeds; `none` (fall through) otherwise. -/
def tryParsedKey (e : Entry) (k : String) : Option String :=
  match List.lookup k e with
  | some (.vTup t) => if t.isEmpty then none else if dtValid t then some (dtRender t) else none
  | some _ => none
  | none => none

/-- `format_published` from the source: prefer `published_parsed`, then
`updated_parsed`; otherwise `str(entry.get("published",
entry.get("updated", "")) or "").strip()`. -/
def format_published (e : Entry) : String :=
  match tryParsedKey e "published_parsed" with
  | some s => s
  | none =>
    match tryParsedKey e "updated_parsed" with
    | some s => s
    | none => pyStrip (pyStr (pyOrV (eGetD e "published" (eGetD e "updated" (.vStr ""))) (.vStr "")))

/-! ### FeedProcessor / RunCoordinator: `main` -/

/-- A configured feed, with the defaults `main` applies already filled in
(`name` defaults to `"Feed"`, keyword lists to `[]`, `max_items` to 30). -/
structure Feed where
  name : String
  url : String
  include_any : List String
  exclude_any : List String
  max_items : Nat
deriving DecidableEq, Repr

/-- The black-box result of `feedparser.parse`: the `bozo` malformedness
flag and the entries sequence. -/
structure ParseResult where
  bozo : Bool
  entries : List Entry
deriving DecidableEq, Repr

/-- Python `set(l)` for the per-feed seen hashes. Iteration order is
modelled as first-occurrence order — a deterministic refinement of
CPython's unspecified set order, which the spec itself flags as
implementation-defined at trim time. -/
def pySet (l : List String) : List String :=
  l.foldl (fun acc x => if acc.contains x then acc else acc ++ [x]) []

/-- Python `seen_map[url] = v`: replace in place, or append a new key
(dicts preserve insertion order). -/
def setKey (m : List (String × List String)) (k : String) (v : List String) :
    List (String × List String) :=
  if (List.lookup k m).isSome then m.map fun p => if p.1 == k then (k, v) else p
  else m ++ [(k, v)]

/-- `list(seen_hashes)[-400:]` under the modelled iteration order: the
last `n` elements. -/
def lastN (n : Nat) (l : List String) : List String := l.drop (l.length - n)

/-- The per-entry loop state: the feed's seen set (with this run's
additions), the new hashes recorded this feed, and all messages sent so
far in the run. -/
structure EntryAcc where
  seen_hashes : List String
  new_hashes : List String
  sentMsgs : List String
deriving DecidableEq, Repr

/-- `title`/`summary`/`link` extraction from the entry loop of `main`:
`str(e_dict.get(k, ...) or "").strip()`. -/
def entryTitle (e : Entry) : String :=
  pyStrip (pyStr (pyOrV (eGetD e "title" (.vStr "")) (.vStr "")))

/-- The filter text: `summary` falling back to `description`. -/
def entrySummary (e : Entry) : String :=
  pyStrip (pyStr (pyOrV (eGetD e "summary" (eGetD e "description" (.vStr ""))) (.vStr "")))

def entryLink (e : Entry) : String :=
  pyStrip (pyStr (pyOrV (eGetD e "link" (.vStr "")) (.vStr "")))

/-- The body of `main`'s inner `for e in entries` loop. A `telegram_send`
failure aborts the whole run (`Except.error`), skipping the seen-marking
of the failing entry. -/
def processEntry (env : Env) (transport : String → Bool) (f : Feed)
    (acc : EntryAcc) (e : Entry) : Except String EntryAcc :=
  let key := make_entry_key e
  if acc.seen_hashes.contains key then .ok acc
  else
    let title := entryTitle e
    let send? : Except String (List String) :=
      if passes_filters title (entrySummary e) f.include_any f.exclude_any then
        let msg := build_message f.name (if title = "" then "(ohne Titel)" else title)
          (entryLink e) (format_published e)
        match telegram_send env transport msg with
        | .error m => .error m
        | .ok _ => .ok (acc.sentMsgs ++ [msg])
      else .ok acc.sentMsgs
    match send? with
    | .error m => .error m
    | .ok msgs => .ok ⟨acc.seen_hashes ++ [key], acc.new_hashes ++ [key], msgs⟩

/-- The run-level accumulator of `main`: the in-memory seen map, the
`changed` flag, dispatched messages, and warnings printed so far. -/
structure RunAcc where
  seen_map : List (String × List String)
  changed : Bool
  sentMsgs : List String
  warnings : List String
deriving DecidableEq, Repr

/-- The body of `main`'s outer `for f in feeds` loop: skip feeds with an
empty url, warn and skip bozo feeds, otherwise run the entry loop over
the first `max_items` entries and, if anything new was recorded, store
the trimmed seen list and mark the state changed. -/
def processFeed (fetch : String → ParseResult) (env : Env) (transport : String → Bool)
    (acc : RunAcc) (f : Feed) : Except String RunAcc :=
  let url := pyStrip f.url
  if url = "" then .ok acc
  else if (fetch url).bozo then
    .ok ⟨acc.seen_map, acc.changed, acc.sentMsgs,
         acc.warnings ++ ["Warnung: Feed-Parsing-Problem bei " ++ url]⟩
  else
    match List.foldlM (processEntry env transport f)
        ⟨pySet ((List.lookup url acc.seen_map).getD []), [], acc.sentMsgs⟩
        ((fetch url).entries.take f.max_items) with
    | .error m => .error m
    | .ok eacc =>
      if eacc.new_hashes.isEmpty then
        .ok ⟨acc.seen_map, acc.changed, eacc.sentMsgs, acc.warnings⟩
      else
        .ok ⟨setKey acc.seen_map url (lastN 400 eacc.seen_hashes), true,
             eacc.sentMsgs, acc.warnings⟩

/-- The feed loop of `main`, starting from the loaded state. -/
def runFeeds (fetch : String → ParseResult) (env : Env) (transport : String → Bool)
    (feeds : List Feed) (state0 : List (String × List String)) : Except String RunAcc :=
  List.foldlM (processFeed fetch env transport) ⟨state0, false, [], []⟩ feeds

/-- The observable outcome of one `main` run: the exit (or propagated
exception), the seen map on disk afterwards, whether the state file was
rewritten, and the dispatched messages and warnings. -/
structure MainOut where
  result : Except String Nat
  disk : List (String × List String)
  wrote : Bool
  sentMsgs : List String
  warnings : List String

/-- `main` from the source. `state0` is the `"seen"` mapping loaded from
`state.json`; `save_json` runs only after the whole loop succeeds and
only when `changed` is set, so a propagated delivery exception leaves the
disk state untouched. An empty feed list exits 1 before any processing. -/
def main (fetch : String → ParseResult) (env : Env) (transport : String → Bool)
    (feeds : List Feed) (state0 : List (String × List String)) : MainOut :=
  if feeds.isEmpty then ⟨.ok 1, state0, false, [], []⟩
  else
    match runFeeds fetch env transport feeds state0 with
    | .error m => ⟨.error m, state0, false, [], []⟩
    | .ok acc =>
      ⟨.ok 0, if acc.changed then acc.seen_map else state0, acc.changed,
       acc.sentMsgs, acc.warnings⟩

def c4entryE : Entry := [("id", .vStr "E")]

def c4entryF : Entry := [("id", .vStr "F")]

def c4fetch : String → ParseResult := fun _ => ⟨false, [c4entryE, c4entryF]⟩

def c4feed : Feed := ⟨"Feed", "u", [], [], 30⟩

def c4keyE : String := "505b0ffa4bea68b75a583d0b669d7dfaa62f2ea4285b87a1da558df289717696"

def c4keyF : String := "40e21f11d393b3b7cb9828590a14a5b28b5e83707fa9cf48bb6b9de5e3774709"

/-- `n` pairwise-distinct filler identities of lengths `k, k+1, …`:
stand-ins for hashes of entries no longer present in the feed. -/
def dRun (k : Nat) : Nat → List String
  | 0 => []
  | n + 1 => String.mk (List.replicate k 'd') :: dRun (k + 1) n

def c4dummies : List String := dRun 65 400

def c4state0 : List (String × List String) := [("u", c4keyE :: c4dummies)]

def c4run1 : MainOut := main c4fetch ⟨"t", "c"⟩ (fun _ => true) [c4feed] c4state0

def c4run2 : MainOut := main c4fetch ⟨"t", "c"⟩ (fun _ => true) [c4feed] c4run1.disk

/-! ## Basic lemmas about the string model -/

theorem data_append (s t : String) : (s ++ t).data = s.data ++ t.data := by
  cases s
  cases t
  rfl

theorem contains_iff_mem (l : List String) (a : String) : l.contains a = true ↔ a ∈ l := by
  induction l with
  | nil => simp [List.contains, List.elem]
  | cons x xs ih =>
    simp only [List.contains] at ih ⊢
    rw [List.elem_cons]
    by_cases hax : a = x
    · simp [hax]
    · have : (a == x) = false := beq_eq_false_iff_ne.mpr hax
      simp [this, ih, List.mem_cons, hax]

theorem mem_dropWhile_of_mem {c : Char} {l : List Char} (hc : pyIsSpace c = false)
    (h : c ∈ l) : c ∈ l.dropWhile pyIsSpace := by
  induction l with
  | nil => cases h
  | cons a as ih =>
    by_cases ha : pyIsSpace a = true
    · rw [List.dropWhile_cons_of_pos ha]
      apply ih
      rcases List.mem_cons.mp h with h | h
      · exact absurd (h ▸ ha) (by simp [hc])
      · exact h
    · rw [List.dropWhile_cons_of_neg ha]
      exact h

theorem mem_pyStripL_of_mem {c : Char} {l : List Char} (hc : pyIsSpace c = false)
    (h : c ∈ l) : c ∈ pyStripL l := by
  unfold pyStripL
  rw [List.mem_reverse]
  apply mem_dropWhile_of_mem hc
  rw [List.mem_reverse]
  exact mem_dropWhile_of_mem hc h

theorem pipe_mem_joined (e : Entry) : '|' ∈ (joinedFields e).data := by
  unfold joinedFields
  simp only [data_append]
  have hp : '|' ∈ ("||" : String).data := by decide
  simp [List.mem_append, hp]

/-- The JSON fallback inside `make_entry_key` is dead code: the joined
string always contains the ten separator pipes, and `strip` removes only
whitespace, so the hash input is always the stripped join. -/
theorem entryKeyRaw_eq_strip (e : Entry) : entryKeyRaw e = pyStrip (joinedFields e) := by
  unfold entryKeyRaw
  have hmem : '|' ∈ (pyStrip (joinedFields e)).data :=
    mem_pyStripL_of_mem (by decide) (pipe_mem_joined e)
  have hne : pyStrip (joinedFields e) ≠ "" := by
    intro h
    rw [h] at hmem
    cases hmem
  simp [hne]

/-- `entryKeyRaw`, hence `make_entry_key`, depends only on the six
identity fields. -/
theorem entryKeyRaw_eq_of_sixFields {e1 e2 : Entry} (h : sixFields e1 = sixFields e2) :
    entryKeyRaw e1 = entryKeyRaw e2 := by
  unfold sixFields at h
  simp only [List.cons.injEq, and_true] at h
  rw [entryKeyRaw_eq_strip, entryKeyRaw_eq_strip]
  unfold joinedFields
  rw [h.1, h.2.1, h.2.2.1, h.2.2.2.1, h.2.2.2.2.1, h.2.2.2.2.2]

/-! ## Injectivity of the pre-hash join on pipe-free fields -/

theorem splitAtSep {a b u v : List Char} (ha : '|' ∉ a) (hb : '|' ∉ b)
    (h : a ++ '|' :: u = b ++ '|' :: v) : a = b ∧ u = v := by
  induction a generalizing b with
  | nil =>
    cases b with
    | nil =>
      simp only [List.nil_append] at h
      exact ⟨rfl, (List.cons.injEq _ _ _ _ ▸ h).2⟩
    | cons c bs =>
      simp only [List.nil_append, List.cons_append, List.cons.injEq] at h
      exact absurd (h.1 ▸ List.mem_cons_self c bs) hb
  | cons c as ih =>
    cases b with
    | nil =>
      simp only [List.cons_append, List.nil_append, List.cons.injEq] at h
      exact absurd (h.1.symm ▸ List.mem_cons_self c as) ha
    | cons d bs =>
      simp only [List.cons_append, List.cons.injEq] at h
      have := ih (fun hm => ha (List.mem_cons_of_mem c hm))
        (fun hm => hb (List.mem_cons_of_mem d hm)) h.2
      exact ⟨by rw [h.1, this.1], this.2⟩

theorem splitAtSep2 {a b u v : List Char} (ha : '|' ∉ a) (hb : '|' ∉ b)
    (h : a ++ '|' :: '|' :: u = b ++ '|' :: '|' :: v) : a = b ∧ u = v := by
  have := splitAtSep ha hb h
  exact ⟨this.1, (List.cons.injEq _ _ _ _ ▸ this.2).2⟩

theorem joined_inj {e1 e2 : Entry}
    (h1 : ∀ s ∈ sixFields e1, ('|' : Char) ∉ s.data)
    (h2 : ∀ s ∈ sixFields e2, ('|' : Char) ∉ s.data)
    (h : joinedFields e1 = joinedFields e2) : sixFields e1 = sixFields e2 := by
  have hd : (joinedFields e1).data = (joinedFields e2).data := by rw [h]
  unfold joinedFields at hd
  simp only [data_append, show ("||" : String).data = ['|', '|'] from rfl,
    List.cons_append, List.nil_append] at hd
  have p0 := h1 (fieldStr e1 "id") (by simp [sixFields])
  have p1 := h1 (fieldStr e1 "guid") (by simp [sixFields])
  have p2 := h1 (fieldStr e1 "link") (by simp [sixFields])
  have p3 := h1 (fieldStr e1 "title") (by simp [sixFields])
  have p4 := h1 (fieldStr e1 "published") (by simp [sixFields])
  have q0 := h2 (fieldStr e2 "id") (by simp [sixFields])
  have q1 := h2 (fieldStr e2 "guid") (by simp [sixFields])
  have q2 := h2 (fieldStr e2 "link") (by simp [sixFields])
  have q3 := h2 (fieldStr e2 "title") (by simp [sixFields])
  have q4 := h2 (fieldStr e2 "published") (by simp [sixFields])
  obtain ⟨e0, hd⟩ := splitAtSep2 p0 q0 hd
  obtain ⟨f1, hd⟩ := splitAtSep2 p1 q1 hd
  obtain ⟨f2, hd⟩ := splitAtSep2 p2 q2 hd
  obtain ⟨f3, hd⟩ := splitAtSep2 p3 q3 hd
  obtain ⟨f4, hd⟩ := splitAtSep2 p4 q4 hd
  have dex : ∀ s t : String, s.data = t.data → s = t := by
    intro s t hst
    cases s
    cases t
    exact congrArg String.mk hst
  unfold sixFields
  rw [dex _ _ e0, dex _ _ f1, dex _ _ f2, dex _ _ f3, dex _ _ f4, dex _ _ hd]

/-! ## C1 -/

/-- Two entries with every identity field absent, differing only in their
`summary` field. -/
def c1e1 : Entry := [("summary", .vStr "a")]

def c1e2 : Entry := [("summary", .vStr "b")]

/-- C1: the claim says that for entries whose six identity fields are all
empty, `make_entry_key` hashes a serialization of the full field set, so
two such entries with different content get different identities. In the
code the fallback is dead: the joined string is ten `|` characters, never
empty after `strip`, so both entries hash the same input and collapse to
one identity. -/
theorem c1_empty_fields_collapse :
    sixFields c1e1 = ["", "", "", "", "", ""] ∧
    sixFields c1e2 = ["", "", "", "", "", ""] ∧
    c1e1 ≠ c1e2 ∧
    entryKeyRaw c1e1 = "||||||||||" ∧
    entryKeyRaw c1e2 = "||||||||||" ∧
    make_entry_key c1e1 = make_entry_key c1e2 :=
  ⟨by decide, by decide, by decide, by decide, by decide,
   congrArg sha256hex (by decide : entryKeyRaw c1e1 = entryKeyRaw c1e2)⟩

/-! ## C2 -/

/-- Entries whose six-field tuples differ (in `id` and `guid`) but whose
`"||"`-joined encodings coincide, because a field contains the separator
character. -/
def c2e1 : Entry := [("id", .vStr "a|")]

def c2e2 : Entry := [("id", .vStr "a"), ("guid", .vStr "|")]

/-- C2 counterexample: the pre-hash encoding of the six-field tuple is
not injective — these two entries differ in their `id`/`guid` fields yet
`make_entry_key` returns the same digest, because both encode to
`"a|||||||||||"`. -/
theorem c2_separator_collision :
    sixFields c2e1 ≠ sixFields c2e2 ∧ make_entry_key c2e1 = make_entry_key c2e2 :=
  ⟨by decide, congrArg sha256hex (by decide : entryKeyRaw c2e1 = entryKeyRaw c2e2)⟩

/-- C2 (amended): identical six-field tuples always give identical
identities; and the pre-hash encoding is injective provided no identity
field contains the separator character `|` and the joined string is
already stripped (no leading whitespace in the first field, none trailing
in the last) — without those provisos `c2_separator_collision` shows a
collision. -/
theorem c2_identity_encoding :
    ∀ e1 e2 : Entry,
      (sixFields e1 = sixFields e2 → make_entry_key e1 = make_entry_key e2) ∧
      ((∀ s ∈ sixFields e1, ('|' : Char) ∉ s.data) →
       (∀ s ∈ sixFields e2, ('|' : Char) ∉ s.data) →
       pyStrip (joinedFields e1) = joinedFields e1 →
       pyStrip (joinedFields e2) = joinedFields e2 →
       sixFields e1 ≠ sixFields e2 → entryKeyRaw e1 ≠ entryKeyRaw e2) := by
  intro e1 e2
  constructor
  · intro h
    exact congrArg sha256hex (entryKeyRaw_eq_of_sixFields h)
  · intro h1 h2 hs1 hs2 hne hraw
    apply hne
    apply joined_inj h1 h2
    rw [entryKeyRaw_eq_strip, entryKeyRaw_eq_strip, hs1, hs2] at hraw
    exact hraw

/-- Witness for `c2_identity_encoding`: two concrete clean entries with
different `id` fields have different pre-hash encodings. -/
theorem c2_identity_encoding_witness :
    entryKeyRaw [(("id" : String), EValue.vStr "a")] ≠ entryKeyRaw [(("id" : String), EValue.vStr "b")] :=
  (c2_identity_encoding [("id", .vStr "a")] [("id", .vStr "b")]).2
    (by decide) (by decide) (by decide) (by decide) (by decide)

/-! ## C3 -/

theorem any_kw_iff (l : List String) (hay : String) :
    (l.any fun kw => norm kw ≠ "" && hasSub (norm kw) hay) = true ↔
      ∃ kw ∈ l, norm kw ≠ "" ∧ hasSub (norm kw) hay = true := by
  simp [List.any_eq_true, Bool.and_eq_true, decide_eq_true_eq]

theorem any_kw_false_iff (l : List String) (hay : String) :
    (l.any fun kw => norm kw ≠ "" && hasSub (norm kw) hay) = false ↔
      ∀ kw ∈ l, norm kw = "" ∨ hasSub (norm kw) hay = false := by
  rw [← Bool.not_eq_true, any_kw_iff]
  constructor
  · intro h kw hkw
    by_cases hn : norm kw = ""
    · exact Or.inl hn
    · refine Or.inr ?_
      by_contra hsub
      exact h ⟨kw, hkw, hn, by simpa using hsub⟩
  · rintro h ⟨kw, hkw, hn, hsub⟩
    rcases h kw hkw with h' | h'
    · exact hn h'
    · rw [hsub] at h'
      cases h'

/-- C3: `passes_filters` returns `false` exactly when some non-empty
normalized exclude keyword occurs in the haystack; otherwise it passes
when `includeAny` is empty, and with a non-empty `includeAny` it passes
iff some non-empty normalized include keyword occurs — and in particular
an exclude match beats an empty include list on the spec's example. -/
theorem c3_filter_semantics :
    (∀ (t s : String) (inc exc : List String),
      passes_filters t s inc exc = true ↔
        ((∀ kw ∈ exc, norm kw = "" ∨ hasSub (norm kw) (haystack t s) = false) ∧
         (inc = [] ∨ ∃ kw ∈ inc, norm kw ≠ "" ∧ hasSub (norm kw) (haystack t s) = true))) ∧
    passes_filters "Breaking: Outage" "" [] ["outage"] = false := by
  refine ⟨fun t s inc exc => ?_, by decide⟩
  unfold passes_filters
  by_cases hexc : (exc.any fun kw => norm kw ≠ "" && hasSub (norm kw) (haystack t s)) = true
  · simp only [hexc, if_true]
    constructor
    · intro h
      cases h
    · rintro ⟨hall, _⟩
      obtain ⟨kw, hkw, hn, hsub⟩ := (any_kw_iff exc (haystack t s)).mp hexc
      rcases hall kw hkw with h' | h'
      · exact absurd h' hn
      · rw [hsub] at h'
        cases h'
  · have hexc' := Bool.not_eq_true _ ▸ hexc
    rw [Bool.not_eq_true] at hexc
    simp only [hexc, Bool.false_eq_true, if_false]
    have hall := (any_kw_false_iff exc (haystack t s)).mp hexc
    by_cases hinc : inc.isEmpty
    · have h0 : inc = [] := List.isEmpty_iff.mp hinc
      subst h0
      simp only [show ([] : List String).isEmpty = true from rfl, if_true]
      exact iff_of_true trivial ⟨hall, Or.inl trivial⟩
    · simp only [hinc, Bool.false_eq_true, if_false]
      rw [any_kw_iff]
      have : inc ≠ [] := fun h => hinc (by simp [h])
      constructor
      · intro h
        exact ⟨hall, Or.inr h⟩
      · rintro ⟨_, h | h⟩
        · exact absurd h this
        · exact h

/-- Witness for `c3_filter_semantics`: the spec's third example passes
(include keyword matches, exclude does not). -/
theorem c3_filter_semantics_witness :
    passes_filters "Breaking News" "" ["breaking"] ["fun"] = true :=
  (c3_filter_semantics.1 "Breaking News" "" ["breaking"] ["fun"]).mpr
    ⟨by decide, by decide⟩

/-! ## C9 -/

theorem isEmpty_false_of_dtValid {t : List Int} (h : dtValid t = true) :
    t.isEmpty = false := by
  unfold dtValid at h
  rw [Bool.and_eq_true] at h
  have h3 : 3 ≤ t.length := by
    have := h.1
    simpa using this
  cases t with
  | nil => simp at h3
  | cons a as => rfl

/-- C9: `format_published` prefers the `published_parsed` tuple, then the
`updated_parsed` tuple, rendering the accepted tuple's own fields as
`DD.MM.YYYY HH:MM`; with no renderable tuple it falls back to the raw
`published` string, then (when `published` is absent) the raw `updated`
string, trimmed; and to the empty string when none of these exists. -/
theorem c9_format_published :
    ∀ (e : Entry) (t t2 : List Int) (s : String),
      (List.lookup "published_parsed" e = some (.vTup t) → dtValid t = true →
        format_published e = dtRender t) ∧
      (tryParsedKey e "published_parsed" = none →
        List.lookup "updated_parsed" e = some (.vTup t2) → dtValid t2 = true →
        format_published e = dtRender t2) ∧
      (tryParsedKey e "published_parsed" = none → tryParsedKey e "updated_parsed" = none →
        ((List.lookup "published" e = some (.vStr s) → format_published e = pyStrip s) ∧
         (List.lookup "published" e = none → List.lookup "updated" e = some (.vStr s) →
           format_published e = pyStrip s) ∧
         (List.lookup "published" e = none → List.lookup "updated" e = none →
           format_published e = ""))) := by
  intro e t t2 s
  refine ⟨?_, ?_, ?_⟩
  · intro h hv
    unfold format_published tryParsedKey
    rw [h]
    simp [isEmpty_false_of_dtValid hv, hv]
  · intro hp h hv
    unfold format_published
    rw [hp]
    unfold tryParsedKey
    rw [h]
    simp [isEmpty_false_of_dtValid hv, hv]
  · intro hp hu
    unfold format_published
    rw [hp, hu]
    have fallback : ∀ v : EValue, pyStrip (pyStr (pyOrV v (.vStr ""))) =
        (match v with
         | .vStr str => pyStrip str
         | w => if pyTruthy w then pyStrip (pyStr w) else "") := by
      intro v
      cases v with
      | vStr str =>
        by_cases hstr : str = ""
        · subst hstr
          rfl
        · have : pyTruthy (.vStr str) = true := by
            unfold pyTruthy
            simpa using hstr
          simp [pyOrV, this, pyStr]
      | vTup tt =>
        by_cases ht : pyTruthy (.vTup tt) = true
        · simp [pyOrV, ht]
        · rw [Bool.not_eq_true] at ht
          simp [pyOrV, ht]
          rfl
      | vNone => rfl
    refine ⟨?_, ?_, ?_⟩
    · intro h
      unfold eGetD
      rw [h]
      simpa using fallback (.vStr s)
    · intro h h2
      unfold eGetD
      rw [h, h2]
      simpa using fallback (.vStr s)
    · intro h h2
      unfold eGetD
      rw [h, h2]
      rfl

/-- Witness for `c9_format_published`: a concrete entry whose
`published_parsed` tuple renders as `05.03.2021 07:09`. -/
theorem c9_format_published_witness :
    format_published [(("published_parsed" : String), EValue.vTup [2021, 3, 5, 7, 9, 0, 4, 64, 0])] =
      dtRender [2021, 3, 5, 7, 9, 0, 4, 64, 0] :=
  (c9_format_published [("published_parsed", .vTup [2021, 3, 5, 7, 9, 0, 4, 64, 0])]
    [2021, 3, 5, 7, 9, 0, 4, 64, 0] [] "").1 rfl (by decide)

/-! ## C10 -/

/-- The entry with its `summary` and `description` fields removed. -/
def eraseMeta (e : Entry) : Entry :=
  e.filter fun p => !(p.1 == "summary" || p.1 == "description")

theorem lookup_eraseMeta (e : Entry) (k : String) (h1 : k ≠ "summary")
    (h2 : k ≠ "description") : List.lookup k (eraseMeta e) = List.lookup k e := by
  induction e with
  | nil => rfl
  | cons p ps ih =>
    obtain ⟨pk, pv⟩ := p
    by_cases hk : pk = "summary" ∨ pk = "description"
    · have hkk : k ≠ pk := by
        rcases hk with h | h
        · rw [h]
          exact h1
        · rw [h]
          exact h2
      have hpred : (!(pk == "summary" || pk == "description")) = false := by
        rcases hk with h | h <;> simp [h]
      have hbeq : (k == pk) = false := beq_eq_false_iff_ne.mpr hkk
      unfold eraseMeta at ih ⊢
      rw [List.filter_cons]
      simp only [hpred, Bool.false_eq_true, if_false]
      rw [ih, List.lookup_cons]
      simp [hbeq]
    · push_neg at hk
      have hpred : (!(pk == "summary" || pk == "description")) = true := by
        simp [hk.1, hk.2]
      unfold eraseMeta at ih ⊢
      rw [List.filter_cons]
      simp only [hpred, if_true]
      rw [List.lookup_cons, List.lookup_cons, ih]

/-- C10: when an entry has no `summary` field the filter text comes from
its `description` field (trimmed; empty when both are absent), while the
identity hash ignores both fields entirely. -/
theorem c10_summary_fallback :
    ∀ (e : Entry) (s : String),
      List.lookup "summary" e = none →
      ((List.lookup "description" e = some (.vStr s) → entrySummary e = pyStrip s) ∧
       (List.lookup "description" e = none → entrySummary e = "") ∧
       make_entry_key (eraseMeta e) = make_entry_key e) := by
  intro e s hsum
  have hkey : make_entry_key (eraseMeta e) = make_entry_key e := by
    apply congrArg sha256hex
    apply entryKeyRaw_eq_of_sixFields
    unfold sixFields fieldStr eGetD
    rw [lookup_eraseMeta e "id" (by decide) (by decide),
      lookup_eraseMeta e "guid" (by decide) (by decide),
      lookup_eraseMeta e "link" (by decide) (by decide),
      lookup_eraseMeta e "title" (by decide) (by decide),
      lookup_eraseMeta e "published" (by decide) (by decide),
      lookup_eraseMeta e "updated" (by decide) (by decide)]
  refine ⟨?_, ?_, hkey⟩
  · intro hdesc
    unfold entrySummary eGetD
    rw [hsum, hdesc]
    by_cases hstr : s = ""
    · subst hstr
      rfl
    · have : pyTruthy (.vStr s) = true := by
        unfold pyTruthy
        simpa using hstr
      simp [pyOrV, this, pyStr]
  · intro hdesc
    unfold entrySummary eGetD
    rw [hsum, hdesc]
    rfl

/-- Witness for `c10_summary_fallback`: with `summary` absent the filter
text is the trimmed `description`. -/
theorem c10_summary_fallback_witness :
    entrySummary [(("description" : String), EValue.vStr " hi ")] = pyStrip " hi " :=
  (c10_summary_fallback [("description", .vStr " hi ")] " hi " rfl).1 rfl

/-! ## Lemmas about the entry loop -/

theorem contains_eq_false_of_not_mem {l : List String} {a : String} (h : a ∉ l) :
    l.contains a = false := by
  rw [Bool.eq_false_iff, Ne, contains_iff_mem]
  exact h

theorem processEntry_skip {env : Env} {tr : String → Bool} {f : Feed} {acc : EntryAcc}
    {e : Entry} (h : make_entry_key e ∈ acc.seen_hashes) :
    processEntry env tr f acc e = .ok acc := by
  simp only [processEntry]
  rw [(contains_iff_mem _ _).mpr h]
  rfl

theorem processEntry_ok {env : Env} {tr : String → Bool} {f : Feed} {acc acc' : EntryAcc}
    {e : Entry} (h : processEntry env tr f acc e = .ok acc') :
    (make_entry_key e ∈ acc.seen_hashes ∧ acc' = acc) ∨
    (make_entry_key e ∉ acc.seen_hashes ∧
     acc'.seen_hashes = acc.seen_hashes ++ [make_entry_key e] ∧
     acc'.new_hashes = acc.new_hashes ++ [make_entry_key e]) := by
  by_cases hmem : make_entry_key e ∈ acc.seen_hashes
  · rw [processEntry_skip hmem] at h
    injection h with h
    exact Or.inl ⟨hmem, h.symm⟩
  · refine Or.inr ⟨hmem, ?_⟩
    simp only [processEntry] at h
    rw [contains_eq_false_of_not_mem hmem] at h
    simp only [Bool.false_eq_true, if_false] at h
    split at h
    · cases h
    · injection h with h
      rw [← h]
      exact ⟨rfl, rfl⟩

theorem processEntry_sent_of_not_passes {env : Env} {tr : String → Bool} {f : Feed}
    {acc acc' : EntryAcc} {e : Entry} (h : processEntry env tr f acc e = .ok acc')
    (hmem : make_entry_key e ∉ acc.seen_hashes)
    (hf : passes_filters (entryTitle e) (entrySummary e) f.include_any f.exclude_any = false) :
    acc'.sentMsgs = acc.sentMsgs := by
  simp only [processEntry] at h
  rw [contains_eq_false_of_not_mem hmem] at h
  simp only [Bool.false_eq_true, if_false, hf] at h
  injection h with h
  rw [← h]

theorem foldEntries_ok {env : Env} {tr : String → Bool} {f : Feed} :
    ∀ (entries : List Entry) (acc eacc : EntryAcc),
      List.foldlM (processEntry env tr f) acc entries = .ok eacc →
      ∃ ks : List String,
        eacc.seen_hashes = acc.seen_hashes ++ ks ∧
        eacc.new_hashes = acc.new_hashes ++ ks ∧
        ks.length ≤ entries.length ∧
        (∀ e ∈ entries, make_entry_key e ∈ eacc.seen_hashes) ∧
        (ks = [] → eacc = acc) := by
  intro entries
  induction entries with
  | nil =>
    intro acc eacc h
    simp only [List.foldlM_nil] at h
    injection h with h
    subst h
    exact ⟨[], by simp, by simp, by simp, by simp, fun _ => rfl⟩
  | cons e es ih =>
    intro acc eacc h
    rw [List.foldlM_cons] at h
    obtain ⟨a', hstep, hrest⟩ : ∃ a', processEntry env tr f acc e = .ok a' ∧
        List.foldlM (processEntry env tr f) a' es = .ok eacc := by
      cases hx : processEntry env tr f acc e with
      | error m =>
        rw [hx] at h
        cases h
      | ok a' =>
        rw [hx] at h
        exact ⟨a', rfl, h⟩
    obtain ⟨ks, hseen, hnew, hlen, hall, hnil⟩ := ih a' eacc hrest
    rcases processEntry_ok hstep with ⟨hmem, rfl⟩ | ⟨hmem, hs, hn⟩
    · refine ⟨ks, hseen, hnew, le_trans hlen (by simp), ?_, hnil⟩
      intro x hx
      rcases List.mem_cons.mp hx with rfl | hx
      · rw [hseen]
        exact List.mem_append_left _ hmem
      · exact hall x hx
    · refine ⟨make_entry_key e :: ks, ?_, ?_, ?_, ?_, ?_⟩
      · rw [hseen, hs, List.append_assoc]
        rfl
      · rw [hnew, hn, List.append_assoc]
        rfl
      · simpa using Nat.succ_le_succ hlen
      · intro x hx
        rcases List.mem_cons.mp hx with rfl | hx
        · rw [hseen, hs]
          exact List.mem_append_left _ (List.mem_append_right _ (List.mem_singleton.mpr rfl))
        · exact hall x hx
      · intro hk
        cases hk

theorem foldEntries_allSeen {env : Env} {tr : String → Bool} {f : Feed} :
    ∀ (entries : List Entry) (acc : EntryAcc),
      (∀ e ∈ entries, make_entry_key e ∈ acc.seen_hashes) →
      List.foldlM (processEntry env tr f) acc entries = .ok acc := by
  intro entries
  induction entries with
  | nil => intro acc _; rfl
  | cons e es ih =>
    intro acc hall
    rw [List.foldlM_cons, processEntry_skip (hall e (List.mem_cons_self e es))]
    show List.foldlM (processEntry env tr f) acc es = .ok acc
    exact ih acc fun x hx => hall x (List.mem_cons_of_mem e hx)

/-! ## C5 -/

theorem mem_setKey {m : List (String × List String)} {k u : String} {v l : List String}
    (h : (u, l) ∈ setKey m k v) : (u, l) ∈ m ∨ (u, l) = (k, v) := by
  unfold setKey at h
  by_cases hs : (List.lookup k m).isSome = true
  · simp only [hs, if_true] at h
    obtain ⟨p, hp, heq⟩ := List.mem_map.mp h
    by_cases hb : (p.1 == k) = true
    · rw [if_pos hb] at heq
      exact Or.inr heq.symm
    · rw [Bool.not_eq_true] at hb
      rw [if_neg (by simp [hb])] at heq
      exact Or.inl (heq ▸ hp)
  · simp only [hs, Bool.false_eq_true, if_false] at h
    rcases List.mem_append.mp h with h | h
    · exact Or.inl h
    · exact Or.inr (List.mem_singleton.mp h)

theorem lastN_length_le (n : Nat) (l : List String) : (lastN n l).length ≤ n := by
  unfold lastN
  rw [List.length_drop]
  omega

/-- C5: every per-feed seen list that `processFeed` writes is a trim
result of at most 400 identities; entries of the map it did not touch are
inherited unchanged. -/
theorem c5_trim_bound :
    ∀ (fetch : String → ParseResult) (env : Env) (tr : String → Bool)
      (acc : RunAcc) (f : Feed) (acc' : RunAcc),
      processFeed fetch env tr acc f = .ok acc' →
      ∀ (u : String) (l : List String),
        (u, l) ∈ acc'.seen_map → (u, l) ∈ acc.seen_map ∨ l.length ≤ 400 := by
  intro fetch env tr acc f acc' h u l hmem
  simp only [processFeed] at h
  split at h
  · injection h with h
    subst h
    exact Or.inl hmem
  · split at h
    · injection h with h
      subst h
      exact Or.inl hmem
    · split at h
      · cases h
      · split at h
        · injection h with h
          subst h
          exact Or.inl hmem
        · injection h with h
          subst h
          rcases mem_setKey hmem with h' | h'
          · exact Or.inl h'
          · right
            injection h' with hu hl
            rw [hl]
            exact lastN_length_le 400 _

def c5acc : RunAcc := ⟨[("v", ["x"])], false, [], []⟩

def c5feed : Feed := ⟨"Feed", "u", [], [], 30⟩

def c5fetch : String → ParseResult := fun _ => ⟨true, []⟩

/-- Witness for `c5_trim_bound` on a concrete malformed feed: the
untouched map entry is inherited or bounded. -/
theorem c5_trim_bound_witness :
    (("v" : String), ["x"]) ∈ c5acc.seen_map ∨ (["x"] : List String).length ≤ 400 :=
  c5_trim_bound c5fetch ⟨"t", "c"⟩ (fun _ => true) c5acc c5feed
    ⟨[("v", ["x"])], false, [], ["Warnung: Feed-Parsing-Problem bei u"]⟩
    (by rfl) "v" ["x"] (by decide)

/-! ## C6 -/

/-- C6: an unseen entry's identity is recorded in both `seen_hashes` and
`new_hashes` whenever its processing completes, whether or not the filter
passed; when the filter fails nothing is dispatched for it; and
re-processing the same entry afterwards is a no-op (so it is neither
re-evaluated nor re-dispatched). -/
theorem c6_seen_regardless :
    ∀ (env : Env) (tr : String → Bool) (f : Feed) (acc : EntryAcc) (e : Entry)
      (acc' : EntryAcc),
      processEntry env tr f acc e = .ok acc' →
      make_entry_key e ∉ acc.seen_hashes →
      (make_entry_key e ∈ acc'.seen_hashes ∧
       make_entry_key e ∈ acc'.new_hashes ∧
       (passes_filters (entryTitle e) (entrySummary e) f.include_any f.exclude_any = false →
         acc'.sentMsgs = acc.sentMsgs) ∧
       processEntry env tr f acc' e = .ok acc') := by
  intro env tr f acc e acc' h hmem
  rcases processEntry_ok h with ⟨hin, _⟩ | ⟨_, hs, hn⟩
  · exact absurd hin hmem
  · have hseen : make_entry_key e ∈ acc'.seen_hashes := by
      rw [hs]
      exact List.mem_append_right _ (List.mem_singleton.mpr rfl)
    refine ⟨hseen, ?_, fun hf => processEntry_sent_of_not_passes h hmem hf, ?_⟩
    · rw [hn]
      exact List.mem_append_right _ (List.mem_singleton.mpr rfl)
    · exact processEntry_skip hseen

def c6feed : Feed := ⟨"Feed", "u", [], ["bad"], 30⟩

def c6entry : Entry := [("title", .vStr "bad")]

def c6acc : EntryAcc :=
  ⟨["69f771dc9b70389546159e464b5a7506b16cb858c13d8c7e0fd733bdc2ec0713"],
   ["69f771dc9b70389546159e464b5a7506b16cb858c13d8c7e0fd733bdc2ec0713"], []⟩

/-- Witness for `c6_seen_regardless`: a filtered-out entry was recorded
as seen, and re-processing it afterwards is a no-op. -/
theorem c6_seen_regardless_witness :
    processEntry ⟨"t", "c"⟩ (fun _ => true) c6feed c6acc c6entry = .ok c6acc :=
  (c6_seen_regardless ⟨"t", "c"⟩ (fun _ => true) c6feed ⟨[], [], []⟩ c6entry c6acc
    (by rfl) (by simp)).2.2.2

/-! ## C8 -/

/-- C8: a feed whose fetch result is flagged malformed (`bozo`)
contributes exactly one warning, no messages, and no seen-map or changed
flag mutation; the loop continues (the step returns `.ok`, not an
error). -/
theorem c8_bozo_skip :
    ∀ (fetch : String → ParseResult) (env : Env) (tr : String → Bool)
      (acc : RunAcc) (f : Feed),
      pyStrip f.url ≠ "" → (fetch (pyStrip f.url)).bozo = true →
      processFeed fetch env tr acc f =
        .ok ⟨acc.seen_map, acc.changed, acc.sentMsgs,
             acc.warnings ++ ["Warnung: Feed-Parsing-Problem bei " ++ pyStrip f.url]⟩ := by
  intro fetch env tr acc f hurl hbozo
  simp only [processFeed]
  rw [if_neg hurl, if_pos hbozo]

def c8acc : RunAcc := ⟨[], false, [], []⟩

def c8feed : Feed := ⟨"Feed", "u", [], [], 30⟩

def c8fetch : String → ParseResult := fun _ => ⟨true, [[("id", .vStr "x")]]⟩

/-- Witness for `c8_bozo_skip` at a concrete malformed feed. -/
theorem c8_bozo_skip_witness :
    processFeed c8fetch ⟨"t", "c"⟩ (fun _ => true) c8acc c8feed =
      .ok ⟨c8acc.seen_map, c8acc.changed, c8acc.sentMsgs,
           c8acc.warnings ++ ["Warnung: Feed-Parsing-Problem bei " ++ pyStrip c8feed.url]⟩ :=
  c8_bozo_skip c8fetch ⟨"t", "c"⟩ (fun _ => true) c8acc c8feed (by decide) (by rfl)

/-! ## C7 -/

theorem except_bind_error {α β : Type} (m : String) (g : α → Except String β) :
    ((Except.error m : Except String α) >>= g) = .error m := rfl

theorem except_bind_ok {α β : Type} (a : α) (g : α → Except String β) :
    ((Except.ok a : Except String α) >>= g) = g a := rfl

theorem foldlM_append_except {σ α : Type} (g : σ → α → Except String σ)
    (l1 l2 : List α) (b : σ) :
    List.foldlM g b (l1 ++ l2) = List.foldlM g b l1 >>= fun b' => List.foldlM g b' l2 := by
  induction l1 generalizing b with
  | nil =>
    rw [List.nil_append, List.foldlM_nil]
    rfl
  | cons a as ih =>
    rw [List.cons_append, List.foldlM_cons, List.foldlM_cons]
    cases hx : g b a with
    | error m => rw [except_bind_error, except_bind_error, except_bind_error]
    | ok b' => rw [except_bind_ok, except_bind_ok, ih b']

/-- C7: the delivery transport's failures are fatal. Missing credentials
make `telegram_send` fail with the credentials message before the network
transport is consulted (the result is the same for any transport); an
errored prefix of the feed list makes the whole run report that error
with the remaining feeds never processed, and likewise an errored prefix
of an entry list short-circuits the rest of the feed's entries; and an
erroring run leaves the state file unwritten. -/
theorem c7_delivery_failure_aborts :
    ∀ (env : Env) (tr tr2 : String → Bool) (text : String) (fetch : String → ParseResult)
      (fs1 fs2 : List Feed) (state0 : List (String × List String)) (m : String)
      (f : Feed) (acc : EntryAcc) (es1 es2 : List Entry),
      ((pyStrip env.token = "" ∨ pyStrip env.chatId = "") →
        telegram_send env tr text =
          .error "TELEGRAM_BOT_TOKEN oder TELEGRAM_CHAT_ID fehlt (GitHub Secrets pruefen)." ∧
        telegram_send env tr text = telegram_send env tr2 text) ∧
      (List.foldlM (processEntry env tr f) acc es1 = .error m →
        List.foldlM (processEntry env tr f) acc (es1 ++ es2) = .error m) ∧
      ((main fetch env tr fs1 state0).result = .error m →
        (main fetch env tr (fs1 ++ fs2) state0).result = .error m ∧
        (main fetch env tr (fs1 ++ fs2) state0).disk = state0 ∧
        (main fetch env tr (fs1 ++ fs2) state0).wrote = false) := by
  intro env tr tr2 text fetch fs1 fs2 state0 m f acc es1 es2
  refine ⟨?_, ?_, ?_⟩
  · intro h
    have hc : (pyStrip env.token = "" || pyStrip env.chatId = "") = true := by
      rcases h with h | h <;> simp [h]
    constructor
    · simp only [telegram_send, hc, if_true]
    · simp only [telegram_send, hc, if_true]
  · intro h
    rw [foldlM_append_except, h, except_bind_error]
  · intro h
    by_cases hempty : fs1.isEmpty = true
    · simp only [main, hempty, if_true] at h
      exact absurd h (by simp)
    · have hempty' : fs1.isEmpty = false := Bool.eq_false_iff.mpr hempty
      simp only [main, hempty', Bool.false_eq_true, if_false] at h
      cases hr : runFeeds fetch env tr fs1 state0 with
      | ok acc' =>
        rw [hr] at h
        exact absurd h (by simp)
      | error m' =>
        rw [hr] at h
        have hm : m' = m := by
          simp only at h
          injection h
        subst hm
        have hne1 : fs1 ≠ [] := by
          intro hh
          rw [hh] at hempty'
          cases hempty'
        have hne2 : (fs1 ++ fs2).isEmpty = false := by
          cases fs1 with
          | nil => exact absurd rfl hne1
          | cons x xs => rfl
        have hr2 : runFeeds fetch env tr (fs1 ++ fs2) state0 = .error m' := by
          unfold runFeeds at hr ⊢
          rw [foldlM_append_except, hr, except_bind_error]
        simp [main, hne2, hr2]

/-! ## Lemmas about the seen store and the run loop, used for C4 -/

theorem mem_pySet_foldl :
    ∀ (l acc : List String) (x : String),
      x ∈ l.foldl (fun a y => if a.contains y then a else a ++ [y]) acc ↔ x ∈ acc ∨ x ∈ l := by
  intro l
  induction l with
  | nil =>
    intro acc x
    simp
  | cons y ys ih =>
    intro acc x
    rw [List.foldl_cons]
    by_cases hc : acc.contains y = true
    · simp only [hc, if_true]
      rw [ih]
      constructor
      · rintro (h | h)
        · exact Or.inl h
        · exact Or.inr (List.mem_cons_of_mem y h)
      · rintro (h | h)
        · exact Or.inl h
        · rcases List.mem_cons.mp h with rfl | h
          · exact Or.inl ((contains_iff_mem _ _).mp hc)
          · exact Or.inr h
    · simp only [hc, Bool.false_eq_true, if_false]
      rw [ih]
      constructor
      · rintro (h | h)
        · rcases List.mem_append.mp h with h | h
          · exact Or.inl h
          · exact Or.inr (List.mem_cons.mpr (Or.inl (List.mem_singleton.mp h)))
        · exact Or.inr (List.mem_cons_of_mem y h)
      · rintro (h | h)
        · exact Or.inl (List.mem_append_left _ h)
        · rcases List.mem_cons.mp h with rfl | h
          · exact Or.inl (List.mem_append_right _ (List.mem_singleton.mpr rfl))
          · exact Or.inr h

theorem mem_pySet (l : List String) (x : String) : x ∈ pySet l ↔ x ∈ l := by
  unfold pySet
  rw [mem_pySet_foldl]
  simp

theorem pySet_foldl_of_nodup :
    ∀ (l acc : List String), (acc ++ l).Nodup →
      l.foldl (fun a y => if a.contains y then a else a ++ [y]) acc = acc ++ l := by
  intro l
  induction l with
  | nil =>
    intro acc _
    simp
  | cons y ys ih =>
    intro acc hnd
    have hy : y ∉ acc := by
      rcases List.nodup_append.mp hnd with ⟨_, _, hdisj⟩
      intro hmem
      exact hdisj hmem (List.mem_cons_self y ys)
    rw [List.foldl_cons]
    simp only [contains_eq_false_of_not_mem hy, Bool.false_eq_true, if_false]
    have hnd' : ((acc ++ [y]) ++ ys).Nodup := by
      rw [List.append_assoc, List.singleton_append]
      exact hnd
    rw [ih (acc ++ [y]) hnd', List.append_assoc, List.singleton_append]

/-- On a duplicate-free list the modelled `set` keeps the list as is. -/
theorem pySet_eq_self {l : List String} (h : l.Nodup) : pySet l = l := by
  unfold pySet
  rw [pySet_foldl_of_nodup l [] (by simpa using h)]
  rfl

theorem lookup_map_setKey {u : String} {v : List String} :
    ∀ (m : List (String × List String)), (List.lookup u m).isSome = true →
      List.lookup u (m.map fun p => if p.1 == u then (u, v) else p) = some v := by
  intro m
  induction m with
  | nil =>
    intro h
    simp [List.lookup] at h
  | cons p ps ih =>
    intro h
    obtain ⟨pk, pv⟩ := p
    by_cases hb : (pk == u) = true
    · simp only [List.map_cons, hb, if_true]
      rw [List.lookup_cons]
      simp
    · rw [Bool.not_eq_true] at hb
      simp only [List.map_cons, hb, Bool.false_eq_true, if_false]
      have hbu : (u == pk) = false := by
        rw [beq_eq_false_iff_ne] at hb ⊢
        exact fun hh => hb hh.symm
      rw [List.lookup_cons]
      simp only [hbu, Bool.false_eq_true, if_false]
      apply ih
      rw [List.lookup_cons] at h
      simpa [hbu] using h

theorem lookup_append_singleton {u : String} {v : List String} :
    ∀ (m : List (String × List String)), List.lookup u m = none →
      List.lookup u (m ++ [(u, v)]) = some v := by
  intro m
  induction m with
  | nil =>
    intro _
    simp [List.lookup]
  | cons p ps ih =>
    intro h
    obtain ⟨pk, pv⟩ := p
    rw [List.lookup_cons] at h
    rw [List.cons_append, List.lookup_cons]
    by_cases hb : (u == pk) = true
    · rw [hb] at h
      cases h
    · rw [Bool.not_eq_true] at hb
      rw [hb] at h ⊢
      simp only [Bool.false_eq_true, if_false]
      exact ih h

/-- A key written by `setKey` is looked up to the written value. -/
theorem lookup_setKey_self (m : List (String × List String)) (u : String) (v : List String) :
    List.lookup u (setKey m u v) = some v := by
  unfold setKey
  by_cases hs : (List.lookup u m).isSome = true
  · rw [if_pos hs]
    exact lookup_map_setKey m hs
  · rw [Bool.not_eq_true] at hs
    rw [hs]
    simp only [Bool.false_eq_true, if_false]
    exact lookup_append_singleton m (Option.not_isSome_iff_eq_none.mp (by simp [hs]))

theorem lastN_of_le {n : Nat} {l : List String} (h : l.length ≤ n) : lastN n l = l := by
  unfold lastN
  have : l.length - n = 0 := by omega
  rw [this, List.drop_zero]

theorem runFeeds_single (fetch : String → ParseResult) (env : Env) (tr : String → Bool)
    (f : Feed) (state0 : List (String × List String)) :
    runFeeds fetch env tr [f] state0 = processFeed fetch env tr ⟨state0, false, [], []⟩ f := by
  unfold runFeeds
  rw [List.foldlM_cons]
  cases hx : processFeed fetch env tr ⟨state0, false, [], []⟩ f with
  | error m => rw [except_bind_error]
  | ok acc =>
    rw [except_bind_ok]
    rfl

theorem main_single (fetch : String → ParseResult) (env : Env) (tr : String → Bool)
    (f : Feed) (state0 : List (String × List String)) :
    main fetch env tr [f] state0 =
      match processFeed fetch env tr ⟨state0, false, [], []⟩ f with
      | .error m => ⟨.error m, state0, false, [], []⟩
      | .ok acc =>
        ⟨.ok 0, if acc.changed then acc.seen_map else state0, acc.changed,
         acc.sentMsgs, acc.warnings⟩ := by
  simp only [main, List.isEmpty_cons, Bool.false_eq_true, if_false]
  rw [runFeeds_single]

theorem processFeed_entries_eq (fetch : String → ParseResult) (env : Env)
    (tr : String → Bool) (f : Feed) (sm : List (String × List String)) (ch : Bool)
    (sms ws : List String) (hurl : pyStrip f.url ≠ "")
    (hbozo : (fetch (pyStrip f.url)).bozo = false) :
    processFeed fetch env tr ⟨sm, ch, sms, ws⟩ f =
      match List.foldlM (processEntry env tr f)
          ⟨pySet ((List.lookup (pyStrip f.url) sm).getD []), [], sms⟩
          (List.take f.max_items (fetch (pyStrip f.url)).entries) with
      | .error m => .error m
      | .ok eacc =>
        if eacc.new_hashes.isEmpty then .ok ⟨sm, ch, eacc.sentMsgs, ws⟩
        else .ok ⟨setKey sm (pyStrip f.url) (lastN 400 eacc.seen_hashes), true,
                  eacc.sentMsgs, ws⟩ := by
  simp only [processFeed]
  rw [if_neg hurl, hbozo]
  simp only [Bool.false_eq_true, if_false]

theorem processEntry_send (env : Env) (tr : String → Bool) (f : Feed) (acc : EntryAcc)
    (e : Entry) (hmem : make_entry_key e ∉ acc.seen_hashes)
    (hp : passes_filters (entryTitle e) (entrySummary e) f.include_any f.exclude_any = true)
    (hsend : telegram_send env tr
      (build_message f.name (if entryTitle e = "" then "(ohne Titel)" else entryTitle e)
        (entryLink e) (format_published e)) = .ok ()) :
    processEntry env tr f acc e =
      .ok ⟨acc.seen_hashes ++ [make_entry_key e], acc.new_hashes ++ [make_entry_key e],
           acc.sentMsgs ++ [build_message f.name
             (if entryTitle e = "" then "(ohne Titel)" else entryTitle e)
             (entryLink e) (format_published e)]⟩ := by
  simp only [processEntry]
  rw [contains_eq_false_of_not_mem hmem]
  simp only [Bool.false_eq_true, if_false, hp, if_true, hsend]

/-! ## C4 -/

/-- C4 (amended): provided the feed's deduplicated stored seen set plus
the entries considered in a run total at most 400 identities, a second
run over the same entry sequence, starting from the state the first
(successful) run left on disk, dispatches nothing and does not rewrite
the state file. `c4_second_run_resends` shows the proviso is necessary:
beyond the bound, the trim can evict the identity of an entry still in
the feed, and the second run re-dispatches it and rewrites the state. -/
theorem c4_second_run_idempotent :
    ∀ (fetch : String → ParseResult) (env : Env) (tr : String → Bool) (f : Feed)
      (state0 : List (String × List String)),
      (pySet ((List.lookup (pyStrip f.url) state0).getD [])).length +
        (List.take f.max_items (fetch (pyStrip f.url)).entries).length ≤ 400 →
      (main fetch env tr [f] state0).result = .ok 0 →
      (main fetch env tr [f] (main fetch env tr [f] state0).disk).sentMsgs = [] ∧
      (main fetch env tr [f] (main fetch env tr [f] state0).disk).wrote = false := by
  intro fetch env tr f state0 hbound hok
  by_cases hurl : pyStrip f.url = ""
  · have hpf : ∀ st : List (String × List String),
        processFeed fetch env tr ⟨st, false, [], []⟩ f = .ok ⟨st, false, [], []⟩ := by
      intro st
      simp only [processFeed]
      rw [if_pos hurl]
    have h1 : main fetch env tr [f] state0 = ⟨.ok 0, state0, false, [], []⟩ := by
      rw [main_single, hpf state0]
      rfl
    have h2 : (main fetch env tr [f] state0).disk = state0 := by rw [h1]
    rw [h2, h1]
    exact ⟨rfl, rfl⟩
  · by_cases hbozo : (fetch (pyStrip f.url)).bozo = true
    · have hpf : ∀ st : List (String × List String),
          processFeed fetch env tr ⟨st, false, [], []⟩ f =
            .ok ⟨st, false, [],
                 [] ++ ["Warnung: Feed-Parsing-Problem bei " ++ pyStrip f.url]⟩ :=
        fun st => c8_bozo_skip fetch env tr ⟨st, false, [], []⟩ f hurl hbozo
      have h1 : main fetch env tr [f] state0 =
          ⟨.ok 0, state0, false, [],
           [] ++ ["Warnung: Feed-Parsing-Problem bei " ++ pyStrip f.url]⟩ := by
        rw [main_single, hpf state0]
        rfl
      have h2 : (main fetch env tr [f] state0).disk = state0 := by rw [h1]
      rw [h2, h1]
      exact ⟨rfl, rfl⟩
    · rw [Bool.not_eq_true] at hbozo
      have hpf1 := processFeed_entries_eq fetch env tr f state0 false [] [] hurl hbozo
      cases hfold : List.foldlM (processEntry env tr f)
          ⟨pySet ((List.lookup (pyStrip f.url) state0).getD []), [], []⟩
          (List.take f.max_items (fetch (pyStrip f.url)).entries) with
      | error m =>
        have h1 : main fetch env tr [f] state0 = ⟨.error m, state0, false, [], []⟩ := by
          rw [main_single, hpf1, hfold]
        rw [h1] at hok
        exact absurd hok (by simp)
      | ok eacc =>
        obtain ⟨ks, hseen, hnew, hlen, hall, hnil⟩ :=
          foldEntries_ok (List.take f.max_items (fetch (pyStrip f.url)).entries) _ _ hfold
        simp only at hseen hnew hall
        rw [List.nil_append] at hnew
        by_cases hks : ks = []
        · subst hks
          have heq : eacc = ⟨pySet ((List.lookup (pyStrip f.url) state0).getD []), [], []⟩ :=
            hnil rfl
          have h1 : main fetch env tr [f] state0 = ⟨.ok 0, state0, false, [], []⟩ := by
            rw [main_single, hpf1, hfold, heq]
            rfl
          have h2 : (main fetch env tr [f] state0).disk = state0 := by rw [h1]
          rw [h2, h1]
          exact ⟨rfl, rfl⟩
        · have hksE : eacc.new_hashes.isEmpty = false := by
            rw [hnew]
            cases ks with
            | nil => exact absurd rfl hks
            | cons a as => rfl
          have hlength :
              (pySet ((List.lookup (pyStrip f.url) state0).getD []) ++ ks).length ≤ 400 := by
            rw [List.length_append]
            omega
          have hlast : lastN 400 eacc.seen_hashes =
              pySet ((List.lookup (pyStrip f.url) state0).getD []) ++ ks := by
            rw [hseen]
            exact lastN_of_le hlength
          have h1 : main fetch env tr [f] state0 =
              ⟨.ok 0,
               setKey state0 (pyStrip f.url)
                 (pySet ((List.lookup (pyStrip f.url) state0).getD []) ++ ks),
               true, eacc.sentMsgs, []⟩ := by
            rw [main_single, hpf1, hfold]
            simp only [hksE, Bool.false_eq_true, if_false, hlast]
            simp
          have h2 : (main fetch env tr [f] state0).disk =
              setKey state0 (pyStrip f.url)
                (pySet ((List.lookup (pyStrip f.url) state0).getD []) ++ ks) := by
            rw [h1]
          rw [h2]
          have hlook2 : List.lookup (pyStrip f.url)
              (setKey state0 (pyStrip f.url)
                (pySet ((List.lookup (pyStrip f.url) state0).getD []) ++ ks)) =
              some (pySet ((List.lookup (pyStrip f.url) state0).getD []) ++ ks) :=
            lookup_setKey_self _ _ _
          have hall2 : ∀ e ∈ List.take f.max_items (fetch (pyStrip f.url)).entries,
              make_entry_key e ∈
                (⟨pySet ((List.lookup (pyStrip f.url)
                    (setKey state0 (pyStrip f.url)
                      (pySet ((List.lookup (pyStrip f.url) state0).getD []) ++ ks))).getD []),
                  [], []⟩ : EntryAcc).seen_hashes := by
            intro e he
            simp only [hlook2, Option.getD_some]
            exact (mem_pySet _ _).mpr (hseen ▸ hall e he)
          have hfold2 := @foldEntries_allSeen env tr f
            (List.take f.max_items (fetch (pyStrip f.url)).entries) _ hall2
          have hpf2 := processFeed_entries_eq fetch env tr f
            (setKey state0 (pyStrip f.url)
              (pySet ((List.lookup (pyStrip f.url) state0).getD []) ++ ks))
            false [] [] hurl hbozo
          have h3 : main fetch env tr [f]
              (setKey state0 (pyStrip f.url)
                (pySet ((List.lookup (pyStrip f.url) state0).getD []) ++ ks)) =
              ⟨.ok 0,
               setKey state0 (pyStrip f.url)
                 (pySet ((List.lookup (pyStrip f.url) state0).getD []) ++ ks),
               false, [], []⟩ := by
            rw [main_single, hpf2, hfold2]
            rfl
          rw [h3]
          exact ⟨rfl, rfl⟩

theorem dRun_length : ∀ (n k : Nat), (dRun k n).length = n := by
  intro n
  induction n with
  | zero => intro k; rfl
  | succ m ih =>
    intro k
    show (dRun k (m + 1)).length = m + 1
    rw [show dRun k (m + 1) = String.mk (List.replicate k 'd') :: dRun (k + 1) m from rfl]
    rw [List.length_cons, ih (k + 1)]

theorem mem_dRun_ge : ∀ (n k : Nat) (s : String), s ∈ dRun k n → k ≤ s.data.length := by
  intro n
  induction n with
  | zero =>
    intro k s h
    cases h
  | succ m ih =>
    intro k s h
    rw [show dRun k (m + 1) = String.mk (List.replicate k 'd') :: dRun (k + 1) m from rfl] at h
    rcases List.mem_cons.mp h with rfl | h
    · show k ≤ (List.replicate k 'd').length
      simp
    · exact le_trans (Nat.le_succ k) (ih (k + 1) s h)

theorem not_mem_dRun {s : String} (n k : Nat) (h : s.data.length < k) : s ∉ dRun k n :=
  fun hmem => absurd (mem_dRun_ge n k s hmem) (by omega)

theorem dRun_nodup : ∀ (n k : Nat), (dRun k n).Nodup := by
  intro n
  induction n with
  | zero => intro k; exact List.nodup_nil
  | succ m ih =>
    intro k
    rw [show dRun k (m + 1) = String.mk (List.replicate k 'd') :: dRun (k + 1) m from rfl]
    refine List.nodup_cons.mpr ⟨?_, ih (k + 1)⟩
    apply not_mem_dRun
    show (List.replicate k 'd').length < k + 1
    simp

/-- The message both probe entries render to (no title, link or date). -/
def c4msg : String := build_message "Feed" "(ohne Titel)" "" ""

set_option maxRecDepth 40000 in
/-- C4 counterexample: starting from a persisted state holding the first
entry's identity followed by 400 other identities, the first run adds the
second entry's identity and the 400-bound trim evicts the first entry's;
the second run over the same two entries then dispatches one message
again and rewrites the state file, although no new upstream entries
appeared between the runs. -/
theorem c4_second_run_resends :
    c4run2.sentMsgs.length = 1 ∧ c4run2.wrote = true := by
  have hkeyE : make_entry_key c4entryE = c4keyE := by decide
  have hkeyF : make_entry_key c4entryF = c4keyF := by decide
  have hEFne : c4keyE ≠ c4keyF := by decide
  have hElen : c4keyE.data.length = 64 := by decide
  have hFlen : c4keyF.data.length = 64 := by decide
  have hurl : pyStrip c4feed.url ≠ "" := by decide
  have hbozo : (c4fetch (pyStrip c4feed.url)).bozo = false := rfl
  have hentries : List.take c4feed.max_items (c4fetch (pyStrip c4feed.url)).entries =
      [c4entryE, c4entryF] := rfl
  have hpE : passes_filters (entryTitle c4entryE) (entrySummary c4entryE)
      c4feed.include_any c4feed.exclude_any = true := by decide
  have hpF : passes_filters (entryTitle c4entryF) (entrySummary c4entryF)
      c4feed.include_any c4feed.exclude_any = true := by decide
  have hmsgE : build_message c4feed.name
      (if entryTitle c4entryE = "" then "(ohne Titel)" else entryTitle c4entryE)
      (entryLink c4entryE) (format_published c4entryE) = c4msg := by decide
  have hmsgF : build_message c4feed.name
      (if entryTitle c4entryF = "" then "(ohne Titel)" else entryTitle c4entryF)
      (entryLink c4entryF) (format_published c4entryF) = c4msg := by decide
  have hsendE : telegram_send ⟨"t", "c"⟩ (fun _ => true) (build_message c4feed.name
      (if entryTitle c4entryE = "" then "(ohne Titel)" else entryTitle c4entryE)
      (entryLink c4entryE) (format_published c4entryE)) = .ok () := by
    rw [hmsgE]
    rfl
  have hsendF : telegram_send ⟨"t", "c"⟩ (fun _ => true) (build_message c4feed.name
      (if entryTitle c4entryF = "" then "(ohne Titel)" else entryTitle c4entryF)
      (entryLink c4entryF) (format_published c4entryF)) = .ok () := by
    rw [hmsgF]
    rfl
  -- run 1
  have hnodup1 : (c4keyE :: c4dummies).Nodup := by
    refine List.nodup_cons.mpr ⟨?_, dRun_nodup 400 65⟩
    apply not_mem_dRun
    rw [hElen]
    omega
  have hseen0 : pySet ((List.lookup (pyStrip c4feed.url) c4state0).getD []) =
      c4keyE :: c4dummies := by
    rw [show (List.lookup (pyStrip c4feed.url) c4state0).getD [] = c4keyE :: c4dummies
      from rfl]
    exact pySet_eq_self hnodup1
  have hstepE1 : processEntry ⟨"t", "c"⟩ (fun _ => true) c4feed
      ⟨c4keyE :: c4dummies, [], []⟩ c4entryE = .ok ⟨c4keyE :: c4dummies, [], []⟩ :=
    processEntry_skip (by rw [hkeyE]; exact List.mem_cons_self _ _)
  have hmemF1 : make_entry_key c4entryF ∉
      (⟨c4keyE :: c4dummies, [], []⟩ : EntryAcc).seen_hashes := by
    rw [hkeyF]
    intro hmem
    rcases List.mem_cons.mp hmem with h | h
    · exact hEFne h.symm
    · exact not_mem_dRun 400 65 (by rw [hFlen]; omega) h
  have hstepF1 := processEntry_send ⟨"t", "c"⟩ (fun _ => true) c4feed
    ⟨c4keyE :: c4dummies, [], []⟩ c4entryF hmemF1 hpF hsendF
  rw [hmsgF, hkeyF] at hstepF1
  have hfold1 : List.foldlM (processEntry ⟨"t", "c"⟩ (fun _ => true) c4feed)
      ⟨c4keyE :: c4dummies, [], []⟩ [c4entryE, c4entryF] =
      .ok ⟨(c4keyE :: c4dummies) ++ [c4keyF], [] ++ [c4keyF], [] ++ [c4msg]⟩ := by
    rw [List.foldlM_cons, hstepE1, except_bind_ok, List.foldlM_cons, hstepF1,
      except_bind_ok, List.foldlM_nil]
    rfl
  have hpf1 := processFeed_entries_eq c4fetch ⟨"t", "c"⟩ (fun _ => true) c4feed
    [("u", c4keyE :: c4dummies)] false [] [] hurl hbozo
  have h1 : c4run1 = ⟨.ok 0, [("u", dRun 66 399 ++ [c4keyF])], true, [c4msg], []⟩ := by
    show main c4fetch ⟨"t", "c"⟩ (fun _ => true) [c4feed] c4state0 = _
    rw [main_single]
    rw [show c4state0 = [("u", c4keyE :: c4dummies)] from rfl] at hseen0 ⊢
    rw [hpf1, hentries, hseen0, hfold1]
    rfl
  -- run 2
  have hnodup2 : (dRun 66 399 ++ [c4keyF]).Nodup := by
    rw [List.nodup_append]
    refine ⟨dRun_nodup 399 66, List.nodup_singleton _, ?_⟩
    intro a ha hb
    have h66 := mem_dRun_ge 399 66 a ha
    rw [List.mem_singleton.mp hb, hFlen] at h66
    omega
  have hseen2 : pySet ((List.lookup (pyStrip c4feed.url)
      [("u", dRun 66 399 ++ [c4keyF])]).getD []) = dRun 66 399 ++ [c4keyF] := by
    rw [show (List.lookup (pyStrip c4feed.url) [("u", dRun 66 399 ++ [c4keyF])]).getD [] =
      dRun 66 399 ++ [c4keyF] from rfl]
    exact pySet_eq_self hnodup2
  have hmemE2 : make_entry_key c4entryE ∉
      (⟨dRun 66 399 ++ [c4keyF], [], []⟩ : EntryAcc).seen_hashes := by
    rw [hkeyE]
    intro hmem
    rcases List.mem_append.mp hmem with h | h
    · exact not_mem_dRun 399 66 (by rw [hElen]; omega) h
    · exact hEFne (List.mem_singleton.mp h)
  have hstepE2 := processEntry_send ⟨"t", "c"⟩ (fun _ => true) c4feed
    ⟨dRun 66 399 ++ [c4keyF], [], []⟩ c4entryE hmemE2 hpE hsendE
  rw [hmsgE, hkeyE] at hstepE2
  have hstepF2 : processEntry ⟨"t", "c"⟩ (fun _ => true) c4feed
      ⟨(dRun 66 399 ++ [c4keyF]) ++ [c4keyE], [] ++ [c4keyE], [] ++ [c4msg]⟩ c4entryF =
      .ok ⟨(dRun 66 399 ++ [c4keyF]) ++ [c4keyE], [] ++ [c4keyE], [] ++ [c4msg]⟩ :=
    processEntry_skip (by
      rw [hkeyF]
      exact List.mem_append_left _ (List.mem_append_right _ (List.mem_singleton.mpr rfl)))
  have hfold2 : List.foldlM (processEntry ⟨"t", "c"⟩ (fun _ => true) c4feed)
      ⟨dRun 66 399 ++ [c4keyF], [], []⟩ [c4entryE, c4entryF] =
      .ok ⟨(dRun 66 399 ++ [c4keyF]) ++ [c4keyE], [] ++ [c4keyE], [] ++ [c4msg]⟩ := by
    rw [List.foldlM_cons, hstepE2, except_bind_ok, List.foldlM_cons, hstepF2,
      except_bind_ok, List.foldlM_nil]
    rfl
  have hpf2 := processFeed_entries_eq c4fetch ⟨"t", "c"⟩ (fun _ => true) c4feed
    [("u", dRun 66 399 ++ [c4keyF])] false [] [] hurl hbozo
  have h2 : c4run2 = ⟨.ok 0,
      setKey [("u", dRun 66 399 ++ [c4keyF])] (pyStrip c4feed.url)
        (lastN 400 ((dRun 66 399 ++ [c4keyF]) ++ [c4keyE])),
      true, [c4msg], []⟩ := by
    show main c4fetch ⟨"t", "c"⟩ (fun _ => true) [c4feed] c4run1.disk = _
    rw [show c4run1.disk = [("u", dRun 66 399 ++ [c4keyF])] by rw [h1]]
    rw [main_single, hpf2, hentries, hseen2, hfold2]
    rfl
  rw [h2]
  exact ⟨rfl, rfl⟩

def c4wfetch : String → ParseResult := fun _ => ⟨false, [[("id", .vStr "W")]]⟩

def c4wfeed : Feed := ⟨"Feed", "u", [], [], 30⟩

/-- Witness for `c4_second_run_idempotent`: one fresh entry, empty prior
state — the second run is silent and writes nothing. -/
theorem c4_second_run_idempotent_witness :
    (main c4wfetch ⟨"t", "c"⟩ (fun _ => true) [c4wfeed]
       (main c4wfetch ⟨"t", "c"⟩ (fun _ => true) [c4wfeed] []).disk).sentMsgs = [] ∧
    (main c4wfetch ⟨"t", "c"⟩ (fun _ => true) [c4wfeed]
       (main c4wfetch ⟨"t", "c"⟩ (fun _ => true) [c4wfeed] []).disk).wrote = false :=
  c4_second_run_idempotent c4wfetch ⟨"t", "c"⟩ (fun _ => true) c4wfeed []
    (by decide) (by rfl)

def c7envBad : Env := ⟨"", "x"⟩

def c7feed : Feed := ⟨"Feed", "u", [], [], 30⟩

def c7fetch : String → ParseResult := fun _ => ⟨false, [[("id", .vStr "C7")]]⟩

/-- Witness for `c7_delivery_failure_aborts`: with an empty bot token the
send fails with the credentials message, and a run over two feeds whose
first feed hits that failure leaves the state file unchanged. -/
theorem c7_delivery_failure_aborts_witness :
    telegram_send c7envBad (fun _ => true) "hi" =
      .error "TELEGRAM_BOT_TOKEN oder TELEGRAM_CHAT_ID fehlt (GitHub Secrets pruefen)." ∧
    (main c7fetch c7envBad (fun _ => true) ([c7feed] ++ [c7feed]) [("v", ["x"])]).disk =
      [("v", ["x"])] :=
  ⟨((c7_delivery_failure_aborts c7envBad (fun _ => true) (fun _ => false) "hi" c7fetch
      [c7feed] [c7feed] [("v", ["x"])]
      "TELEGRAM_BOT_TOKEN oder TELEGRAM_CHAT_ID fehlt (GitHub Secrets pruefen)."
      c7feed ⟨[], [], []⟩ [] []).1 (Or.inl rfl)).1,
   ((c7_delivery_failure_aborts c7envBad (fun _ => true) (fun _ => false) "hi" c7fetch
      [c7feed] [c7feed] [("v", ["x"])]
      "TELEGRAM_BOT_TOKEN oder TELEGRAM_CHAT_ID fehlt (GitHub Secrets pruefen)."
      c7feed ⟨[], [], []⟩ [] []).2.2 (by rfl)).2.1⟩

end RSS

